import Mathlib

/-!
# Verification of the ID-site redirect / callback core

A shallow embedding of `stormpath/resources/application.py`:
`Application.build_id_site_redirect_url` (lines 146-185) and
`Application.handle_id_site_callback` (lines 187-249), together with the
collaborators they use (the PyJWT encode/decode pair, `urllib.urlencode`,
`urlparse`, the nonce cache store, API-key lookup and account lookup).

Modelling conventions:
* JWT wire format: PyJWT emits `header.payload.signature` where each segment
  is base64url (alphabet `[A-Za-z0-9_-]`, padding stripped, so no `=`).
  We keep that shape but serialise each segment with a concrete injective
  character-level codec whose output alphabet is `a..z` (see `encStr`,
  `encPayloadChars`): like base64url it contains no `=`, `?`, `#`, `&` and
  survives `urllib.quote_plus` unchanged.  The HMAC signature is symbolic
  and perfect: `Sig alg secret msg`, equal exactly when algorithm, key and
  signing input agree — which is the property signature verification relies
  on.  Crucially, as in the PyJWT version this code pins (`jwt.decode`
  called without an `algorithms` whitelist, and `jwt.ExpiredSignature`
  which only pre-1.0 PyJWT defines), the verifying algorithm is read from
  the token's own header, not fixed by the caller.
* Effects: the cache is threaded explicitly; account retrieval is recorded
  in an `accountLookups` trace.  Python exceptions that escape the function
  (`ValueError` on nonce replay, `KeyError` on missing claims) become the
  `raised` constructor of `PyResult`; the `return None` paths become
  `pynone`.
* Impure inputs (`datetime.utcnow()`, `uuid4().get_hex()`) are passed as
  explicit arguments.
-/

set_option maxRecDepth 1000000

namespace StormpathIdSite

/-! ## Character-level segment codec (stand-in for base64url)

Each character is serialised as the little-endian base-16 digits of its
code point written with the letters `a..p`, terminated by `q`. -/

def hexDigit : Nat → Char
  | 0 => 'a' | 1 => 'b' | 2 => 'c' | 3 => 'd'
  | 4 => 'e' | 5 => 'f' | 6 => 'g' | 7 => 'h'
  | 8 => 'i' | 9 => 'j' | 10 => 'k' | 11 => 'l'
  | 12 => 'm' | 13 => 'n' | 14 => 'o' | _ => 'p'

def hexVal : Char → Nat
  | 'a' => 0 | 'b' => 1 | 'c' => 2 | 'd' => 3
  | 'e' => 4 | 'f' => 5 | 'g' => 6 | 'h' => 7
  | 'i' => 8 | 'j' => 9 | 'k' => 10 | 'l' => 11
  | 'm' => 12 | 'n' => 13 | 'o' => 14 | _ => 15

def hexLeAux : Nat → Nat → List Char
  | 0, _ => []
  | fuel + 1, n => if n = 0 then [] else hexDigit (n % 16) :: hexLeAux fuel (n / 16)

/-- Little-endian base-16 rendering of a natural number over `a..p`. -/
def hexLe (n : Nat) : List Char := hexLeAux n n

def unHexLe : List Char → Nat
  | [] => 0
  | c :: cs => hexVal c + 16 * unHexLe cs

/-- One character, serialised as its hex digits followed by the terminator `q`. -/
def encChar (c : Char) : List Char := hexLe c.toNat ++ ['q']

/-- A character list serialised into the `a..q` alphabet. -/
def encStr (l : List Char) : List Char := l.flatMap encChar

/-- Python's `str.split(sep)` on character lists: `"" ↦ [""]`,
`"a=b" ↦ ["a","b"]`. -/
def splitOnChar (sep : Char) : List Char → List (List Char)
  | [] => [[]]
  | c :: cs =>
    match splitOnChar sep cs with
    | [] => [[c]]
    | p :: ps => if c = sep then [] :: p :: ps else (c :: p) :: ps

/-- Inverse of `encStr` on well-formed input. -/
def decStr (cs : List Char) : List Char :=
  ((splitOnChar 'q' cs).dropLast).map (fun seg => Char.ofNat (unHexLe seg))

/-! ## JSON values and token payloads -/

/-- The JSON values that occur in the token claims exchanged by this flow. -/
inductive JVal where
  | str (s : String)
  | num (n : Int)
  | bool (b : Bool)
  | null
deriving DecidableEq, Repr

/-- Python truthiness of a decoded JSON value (`if not api_key_id`,
`201 if is_new_account else 200`). -/
def jvalTruthy : JVal → Bool
  | .str s => s ≠ ""
  | .num n => n ≠ 0
  | .bool b => b
  | .null => false

/-- Python `str()` of a claim value, used where a claim is spliced into an
href (only string claims occur in practice). -/
def jvalKey : JVal → String
  | .str s => s
  | .num n => toString n
  | .bool b => if b then "True" else "False"
  | .null => "None"

/-- A decoded JWT payload: the claim dictionary. -/
def Payload := List (String × JVal)

instance : DecidableEq Payload := by
  unfold Payload
  infer_instance

/-- Serialise one JSON value; first char is a tag in `r..w`, the rest is in
`a..q`, so no `y`, `z` or `.` ever occurs. -/
def encJVal : JVal → List Char
  | .str s => 's' :: encStr s.data
  | .num n => if n < 0 then 'r' :: hexLe n.natAbs else 't' :: hexLe n.natAbs
  | .bool b => [if b then 'u' else 'v']
  | .null => ['w']

def decJVal : List Char → Option JVal
  | 's' :: cs => some (.str (String.mk (decStr cs)))
  | 'r' :: cs => some (.num (-(unHexLe cs : Int)))
  | 't' :: cs => some (.num (unHexLe cs))
  | ['u'] => some (.bool true)
  | ['v'] => some (.bool false)
  | ['w'] => some .null
  | _ => none

/-- One claim entry `key ++ 'y' ++ value`. -/
def encEntry (e : String × JVal) : List Char := encStr e.1.data ++ 'y' :: encJVal e.2

/-- The payload segment: `z`-terminated entries. -/
def encPayloadChars (p : Payload) : List Char := p.flatMap (fun e => encEntry e ++ ['z'])

def decEntry (cs : List Char) : Option (String × JVal) :=
  match splitOnChar 'y' cs with
  | [kc, vc] => (decJVal vc).map (fun v => (String.mk (decStr kc), v))
  | _ => none

def decEntries : List (List Char) → Option Payload
  | [] => some []
  | e :: es =>
    match decEntry e, decEntries es with
    | some x, some xs => some (x :: xs)
    | _, _ => none

def decPayloadChars (cs : List Char) : Option Payload :=
  decEntries ((splitOnChar 'z' cs).dropLast)

/-! ## Symbolic JWT -/

/-- A symbolic, perfect HMAC: two signatures are equal exactly when the
algorithm, key and signing input all agree. -/
structure Sig where
  alg : String
  secret : String
  msg : String
deriving DecidableEq, Repr

def encSig (s : Sig) : List Char :=
  encStr s.alg.data ++ 'y' :: encStr s.secret.data ++ 'y' :: encStr s.msg.data

def decSig (cs : List Char) : Option Sig :=
  match splitOnChar 'y' cs with
  | [a, b, c] => some ⟨String.mk (decStr a), String.mk (decStr b), String.mk (decStr c)⟩
  | _ => none

/-- `jwt.encode(body, secret, alg)`: `header.payload.signature`, the
signature an HMAC under `alg` and `secret` over the first two segments.
The call at `application.py:183` passes `'HS256'`. -/
def jwt_encode (body : Payload) (secret : String) (alg : String) : String :=
  let hdr := encStr alg.data
  let pl := encPayloadChars body
  let signingInput := String.mk (hdr ++ '.' :: pl)
  String.mk (hdr ++ '.' :: pl ++ '.' :: encSig ⟨alg, secret, signingInput⟩)

/-- `jwt.decode(token, verify=False)` (line 210): split into three segments
and deserialise the payload, without any signature or expiry check;
failures are `jwt.DecodeError`, modelled as `none`. -/
def jwt_decode_unverified (s : String) : Option Payload :=
  match splitOnChar '.' s.data with
  | [_, p, _] => decPayloadChars p
  | _ => none

inductive VerifiedDecode where
  | ok (p : Payload)
  | decodeError
  | expiredSignature
deriving DecidableEq

/-- `jwt.decode(token, secret)` (line 223).  As in the pre-1.0 PyJWT this
code uses (no `algorithms` whitelist; `jwt.ExpiredSignature`), the
verification algorithm is the one named by the token's own header: the
expected signature is recomputed with `alg` taken from the header segment.
Expiry is checked after the signature. -/
def jwt_decode_verified (s : String) (secret : String) (now : Int) : VerifiedDecode :=
  match splitOnChar '.' s.data with
  | [h, p, g] =>
    match decPayloadChars p, decSig g with
    | some payload, some sig =>
      let headerAlg := String.mk (decStr h)
      if sig = ⟨headerAlg, secret, String.mk (h ++ '.' :: p)⟩ then
        match List.lookup "exp" payload with
        | some (.num e) => if e < now then .expiredSignature else .ok payload
        | _ => .ok payload
      else .decodeError
    | _, _ => .decodeError
  | _ => .decodeError

/-! ## URL handling -/

/-- `urllib.quote_plus`: alphanumerics and `_.-` pass through, space becomes
`+`, anything else is percent-escaped byte-wise. -/
def quotePlusChar (c : Char) : List Char :=
  if c.isAlphanum || c = '_' || c = '.' || c = '-' then [c]
  else if c = ' ' then ['+']
  else (String.singleton c).toUTF8.toList.flatMap
    (fun b => '%' :: hexDigit (b.toNat / 16) :: [hexDigit (b.toNat % 16)])

def quotePlus (s : String) : String := String.mk (s.data.flatMap quotePlusChar)

/-- `urllib.urlencode({k: v})` for the single-parameter dictionaries this
code builds (line 184-185). -/
def urlencode1 (k v : String) : String := quotePlus k ++ "=" ++ quotePlus v

/-- `urlparse(url).query`: strip the fragment (first `#`), then take what
follows the first `?`. -/
def urlparse_query (url : String) : String :=
  String.mk (((url.data.takeWhile (fun c => c ≠ '#')).dropWhile (fun c => c ≠ '?')).drop 1)

/-- Line 205: `urlparse(url_response).query.split('=')[1]`, with the bare
`except` turning any failure (here: fewer than two `=`-separated parts,
the `IndexError` case) into `None`. -/
def extract_jwt_response (url_response : String) : Option String :=
  ((splitOnChar '=' (urlparse_query url_response).data)[1]?).map String.mk

/-! ## Cache store, resources, collaborators -/

/-- The data store's cache: href-keyed dictionaries of strings.
`_cache_get` is a plain read, `_cache_put` a plain write; per spec §2 the
NonceStore collaborator is a key-value cache with get/put semantics. -/
def Cache := List (String × List (String × String))

instance : DecidableEq Cache := by
  unfold Cache
  infer_instance

def cache_get (c : Cache) (href : String) : Option (List (String × String)) :=
  List.lookup href c

/-- Python truthiness of a `_cache_get` result (line 232): `None` and the
empty dict are falsy. -/
def cache_truthy : Option (List (String × String)) → Bool
  | none => false
  | some d => !d.isEmpty

def cache_put (c : Cache) (href : String) (data : List (String × String)) : Cache :=
  (href, data) :: c

structure ApiKey where
  id : String
  secret : String
deriving DecidableEq, Repr

structure Account where
  href : String
  sp_http_status : Int
deriving DecidableEq, Repr

structure IdSiteCallbackResult where
  account : Account
  state : JVal
deriving DecidableEq, Repr

/-- Modelled from the spec: the `Nonce` resource (`stormpath/nonce.py`, not
under `src/`) wraps the token's one-time identifier; per spec §3 it is
keyed by the `irt` value, giving a cache href determined by that value. -/
structure Nonce where
  value : String
  href : String
deriving DecidableEq, Repr

def mkNonce (v : String) : Nonce := ⟨v, "/nonces/" ++ v⟩

/-- The `Application` with the external collaborators `handle_id_site_callback`
consults: its own href, `self.api_keys.get_key(client_id=..)` and
`self.accounts.get(..)` (followed by the forced retrieval at line 247). -/
structure App where
  href : String
  api_keys : JVal → Option ApiKey
  accounts : JVal → Account

inductive PyExn where
  | valueError (msg : String)
  | keyError (key : String)
deriving DecidableEq, Repr

inductive PyResult where
  | ok (r : IdSiteCallbackResult)
  | pynone
  | raised (e : PyExn)
deriving DecidableEq, Repr

structure HandleOutput where
  result : PyResult
  cache : Cache
  accountLookups : List JVal
deriving DecidableEq

/-! ## The two operations under verification -/

/-- `build_id_site_redirect_url` (lines 146-185).  `iat` and `jti` stand for
the impure `datetime.utcnow()` and `uuid4().get_hex()`; `path`/`state` are
the optional keyword arguments, included in the claim body only when truthy
(lines 178-181); the token is signed with the pinned `'HS256'` (line 183)
and wrapped into the SSO endpoint's query string (lines 184-185). -/
def build_id_site_redirect_url (app : App) (api_key : ApiKey) (callback_uri : String)
    (path : Option String) (state : Option String) (iat : Int) (jti : String) : String :=
  let body : Payload :=
    [("iat", JVal.num iat), ("jti", JVal.str jti), ("iss", JVal.str api_key.id),
     ("sub", JVal.str app.href), ("cb_uri", JVal.str callback_uri)]
    ++ (match path with
        | some p => if p ≠ "" then [("path", JVal.str p)] else []
        | none => [])
    ++ (match state with
        | some s => if s ≠ "" then [("state", JVal.str s)] else []
        | none => [])
  let jwt_signature := jwt_encode body api_key.secret "HS256"
  "https://api.stormpath.com/sso" ++ "?" ++ urlencode1 "jwtRequest" jwt_signature

/-- The claim body built at lines 171-181, exposed for statements about the
token's contents. -/
def build_body (app : App) (api_key : ApiKey) (callback_uri : String)
    (path : Option String) (state : Option String) (iat : Int) (jti : String) : Payload :=
  [("iat", JVal.num iat), ("jti", JVal.str jti), ("iss", JVal.str api_key.id),
   ("sub", JVal.str app.href), ("cb_uri", JVal.str callback_uri)]
  ++ (match path with
      | some p => if p ≠ "" then [("path", JVal.str p)] else []
      | none => [])
  ++ (match state with
      | some s => if s ≠ "" then [("state", JVal.str s)] else []
      | none => [])

/-- Lines 198-225 of `handle_id_site_callback`: everything before the first
touch of the nonce store.  Extraction (lines 204-207), unverified decode
(209-212), the `aud` truthiness check (214-216), key resolution (217-219)
and signature verification (221-225).  All failures return `None`; none of
these steps reads or writes the cache. -/
def verifyStage (app : App) (now : Int) (url_response : String) : Option Payload :=
  match extract_jwt_response url_response with
  | none => none
  | some jwt_response =>
    match jwt_decode_unverified jwt_response with
    | none => none
    | some decoded_data =>
      match List.lookup "aud" decoded_data with
      | none => none
      | some aud =>
        if jvalTruthy aud then
          match app.api_keys aud with
          | none => none
          | some api_key =>
            match jwt_decode_verified jwt_response api_key.secret now with
            | .ok d => some d
            | _ => none
        else none

/-- Line 232: `self._store._cache_get(nonce.href)` under `if`. -/
def nonceCheckStep (cache : Cache) (href : String) : Bool :=
  cache_truthy (cache_get cache href)

/-- Line 236: `self._store._cache_put(href=nonce.href, data={'value': nonce.value})`.
A separate write, issued only after `nonceCheckStep` returned false. -/
def noncePutStep (cache : Cache) (n : Nonce) : Cache :=
  cache_put cache n.href [("value", n.value)]

/-- `handle_id_site_callback` (lines 187-249).  After `verifyStage`, the
`irt` claim is read (line 228, `KeyError` if absent), the nonce cache is
read (line 232, raising `ValueError` on a hit) and then written (line 236),
the remaining claims are read in source order (lines 238-241, `KeyError`
stops at the first missing one — after the nonce write), and the account is
fetched and its `sp_http_status` overwritten (lines 243-249). -/
def handle_id_site_callback (app : App) (now : Int) (cache : Cache)
    (url_response : String) : HandleOutput :=
  match verifyStage app now url_response with
  | none => ⟨.pynone, cache, []⟩
  | some decoded_data =>
    match List.lookup "irt" decoded_data with
    | none => ⟨.raised (.keyError "irt"), cache, []⟩
    | some irt =>
      let nonce := mkNonce (jvalKey irt)
      if nonceCheckStep cache nonce.href then
        ⟨.raised (.valueError "JWT has already been used."), cache, []⟩
      else
        let cache1 := noncePutStep cache nonce
        match List.lookup "iss" decoded_data, List.lookup "sub" decoded_data,
              List.lookup "isNewSub" decoded_data, List.lookup "state" decoded_data with
        | none, _, _, _ => ⟨.raised (.keyError "iss"), cache1, []⟩
        | some _, none, _, _ => ⟨.raised (.keyError "sub"), cache1, []⟩
        | some _, some _, none, _ => ⟨.raised (.keyError "isNewSub"), cache1, []⟩
        | some _, some _, some _, none => ⟨.raised (.keyError "state"), cache1, []⟩
        | some _, some sub, some isNewSub, some state =>
          let account0 := app.accounts sub
          let account : Account :=
            { account0 with sp_http_status := if jvalTruthy isNewSub then 201 else 200 }
          ⟨.ok ⟨account, state⟩, cache1, [sub]⟩

/-- The algorithm named by a token's own header segment — what the
verification step at line 223 trusts (see `jwt_decode_verified`). -/
def jwt_header_alg (s : String) : Option String :=
  match splitOnChar '.' s.data with
  | [h, _, _] => some (String.mk (decStr h))
  | _ => none

/-- Two concurrent verifications of the same token, interleaved at the
boundary between line 232 (`_cache_get`) and line 236 (`_cache_put`):
A checks, B checks, A writes, B writes.  A caller proceeds to success
exactly when its own check returned false (line 233 raises otherwise).
Returns (A passed, B passed, final cache). -/
def interleavedReplay (cache : Cache) (n : Nonce) : Bool × Bool × Cache :=
  let aPassed := !nonceCheckStep cache n.href
  let bPassed := !nonceCheckStep cache n.href
  let cacheA := noncePutStep cache n
  let cacheAB := noncePutStep cacheA n
  (aPassed, bPassed, cacheAB)

/-! ## Concrete fixtures -/

def sampleKey : ApiKey := ⟨"kid", "sec"⟩

def sampleApp : App :=
  { href := "apphref"
    api_keys := fun v => if v = JVal.str "kid" then some sampleKey else none
    accounts := fun _ => ⟨"acchref", 200⟩ }

/-- A well-formed ID-site response payload: all claims the callback handler
reads, signed for `sampleKey`. -/
def respPayload : Payload :=
  [("aud", JVal.str "kid"), ("irt", JVal.str "n1"), ("iss", JVal.str "Stormpath"),
   ("sub", JVal.str "acchref"), ("isNewSub", JVal.bool false), ("state", JVal.str "xyz")]

def respToken : String := jwt_encode respPayload "sec" "HS256"

def respUrl : String := "https://myapp.example/cb?jwtResponse=" ++ respToken

/-- Same claims but signed and labelled with a different header algorithm. -/
def respTokenHS512 : String := jwt_encode respPayload "sec" "HS512"

def respUrlHS512 : String := "https://myapp.example/cb?jwtResponse=" ++ respTokenHS512

/-- `respPayload` without the `aud` claim. -/
def noAudPayload : Payload :=
  [("irt", JVal.str "n1"), ("iss", JVal.str "Stormpath"),
   ("sub", JVal.str "acchref"), ("isNewSub", JVal.bool false), ("state", JVal.str "xyz")]

def noAudUrl : String :=
  "https://myapp.example/cb?jwtResponse=" ++ jwt_encode noAudPayload "sec" "HS256"

/-- `respPayload` with an `aud` no key resolves. -/
def unknownAudPayload : Payload :=
  [("aud", JVal.str "other"), ("irt", JVal.str "n1"), ("iss", JVal.str "Stormpath"),
   ("sub", JVal.str "acchref"), ("isNewSub", JVal.bool false), ("state", JVal.str "xyz")]

def unknownAudUrl : String :=
  "https://myapp.example/cb?jwtResponse=" ++ jwt_encode unknownAudPayload "sec" "HS256"

/-- `respPayload` signed with the wrong secret. -/
def badSigUrl : String :=
  "https://myapp.example/cb?jwtResponse=" ++ jwt_encode respPayload "wrong" "HS256"

/-- `respPayload` with an `exp` in the past (relative to `now = 0`). -/
def expiredPayload : Payload :=
  [("exp", JVal.num (-5)), ("aud", JVal.str "kid"), ("irt", JVal.str "n1"),
   ("iss", JVal.str "Stormpath"), ("sub", JVal.str "acchref"),
   ("isNewSub", JVal.bool false), ("state", JVal.str "xyz")]

def expiredUrl : String :=
  "https://myapp.example/cb?jwtResponse=" ++ jwt_encode expiredPayload "sec" "HS256"

/-- A valid response-style payload with the optional `state` claim absent. -/
def noStatePayload : Payload :=
  [("aud", JVal.str "kid"), ("irt", JVal.str "n1"), ("iss", JVal.str "Stormpath"),
   ("sub", JVal.str "acchref"), ("isNewSub", JVal.bool false)]

def noStateUrl : String :=
  "https://myapp.example/cb?jwtResponse=" ++ jwt_encode noStatePayload "sec" "HS256"

/-! ## Codec correctness -/

theorem hexVal_hexDigit (m : Nat) (h : m < 16) : hexVal (hexDigit m) = m := by
  interval_cases m <;> rfl

theorem hexDigit_bounds (m : Nat) : 'a' ≤ hexDigit m ∧ hexDigit m ≤ 'p' := by
  unfold hexDigit
  split <;> exact ⟨by decide, by decide⟩

theorem unHexLe_hexLeAux (fuel : Nat) :
    ∀ n, n ≤ fuel → unHexLe (hexLeAux fuel n) = n := by
  induction fuel with
  | zero =>
    intro n h
    interval_cases n
    rfl
  | succ fuel ih =>
    intro n h
    by_cases h0 : n = 0
    · subst h0
      simp [hexLeAux, unHexLe]
    · have h16 : n % 16 < 16 := Nat.mod_lt _ (by decide)
      have hdiv : n / 16 ≤ fuel := by
        have := Nat.div_lt_self (Nat.pos_of_ne_zero h0) (by decide : 1 < 16)
        omega
      simp only [hexLeAux, h0, if_false, unHexLe, ih (n / 16) hdiv,
        hexVal_hexDigit _ h16]
      omega

theorem unHexLe_hexLe (n : Nat) : unHexLe (hexLe n) = n :=
  unHexLe_hexLeAux n n (Nat.le_refl n)

theorem mem_hexLeAux (fuel : Nat) :
    ∀ n c, c ∈ hexLeAux fuel n → 'a' ≤ c ∧ c ≤ 'p' := by
  induction fuel with
  | zero =>
    intro n c hc
    simp [hexLeAux] at hc
  | succ fuel ih =>
    intro n c hc
    by_cases h0 : n = 0
    · simp [hexLeAux, h0] at hc
    · simp only [hexLeAux, h0, if_false, List.mem_cons] at hc
      rcases hc with hc | hc
      · exact hc ▸ hexDigit_bounds _
      · exact ih _ _ hc

theorem mem_hexLe {n : Nat} {c : Char} (hc : c ∈ hexLe n) : 'a' ≤ c ∧ c ≤ 'p' :=
  mem_hexLeAux n n c hc

theorem mem_encStr {l : List Char} {c : Char} (hc : c ∈ encStr l) :
    'a' ≤ c ∧ c ≤ 'q' := by
  rcases List.mem_flatMap.mp hc with ⟨d, _, hd⟩
  simp only [encChar, List.mem_append, List.mem_singleton] at hd
  rcases hd with hd | hd
  · exact ⟨(mem_hexLe hd).1, le_trans (mem_hexLe hd).2 (by decide)⟩
  · subst hd
    exact ⟨by decide, by decide⟩

theorem splitOnChar_ne_nil (sep : Char) (l : List Char) : splitOnChar sep l ≠ [] := by
  induction l with
  | nil => simp [splitOnChar]
  | cons c cs ih =>
    unfold splitOnChar
    cases hs : splitOnChar sep cs with
    | nil => simp
    | cons p ps => by_cases hc : c = sep <;> simp [hc]

theorem splitOnChar_not_mem {sep : Char} {l : List Char} (h : sep ∉ l) :
    splitOnChar sep l = [l] := by
  induction l with
  | nil => rfl
  | cons c cs ih =>
    have hc : ¬ c = sep := fun e => h (e ▸ List.mem_cons_self c cs)
    have hcs : sep ∉ cs := fun m => h (List.mem_cons_of_mem _ m)
    unfold splitOnChar
    rw [ih hcs]
    simp [hc]

theorem splitOnChar_append {sep : Char} {l₁ : List Char} (l₂ : List Char)
    (h : sep ∉ l₁) :
    splitOnChar sep (l₁ ++ sep :: l₂) = l₁ :: splitOnChar sep l₂ := by
  induction l₁ with
  | nil =>
    simp only [List.nil_append]
    cases hs : splitOnChar sep l₂ with
    | nil => exact absurd hs (splitOnChar_ne_nil sep l₂)
    | cons p ps =>
      rw [splitOnChar, hs]
      simp
  | cons c cs ih =>
    have hc : ¬ c = sep := fun e => h (e ▸ List.mem_cons_self c cs)
    have hcs : sep ∉ cs := fun m => h (List.mem_cons_of_mem _ m)
    simp only [List.cons_append]
    rw [splitOnChar, ih hcs]
    simp [hc]

theorem dropLast_cons_of_ne_nil {α : Type} (a : α) {l : List α} (h : l ≠ []) :
    (a :: l).dropLast = a :: l.dropLast := by
  cases l with
  | nil => exact absurd rfl h
  | cons x xs => rfl

theorem decStr_encStr (l : List Char) : decStr (encStr l) = l := by
  induction l with
  | nil => rfl
  | cons c cs ih =>
    have hq : 'q' ∉ hexLe c.toNat := fun hm => by
      have := (mem_hexLe hm).2
      exact absurd this (by decide)
    have hsplit : splitOnChar 'q' (encStr (c :: cs))
        = hexLe c.toNat :: splitOnChar 'q' (encStr cs) := by
      have : encStr (c :: cs) = hexLe c.toNat ++ 'q' :: encStr cs := by
        simp [encStr, encChar]
      rw [this, splitOnChar_append _ hq]
    unfold decStr
    rw [hsplit, dropLast_cons_of_ne_nil _ (splitOnChar_ne_nil _ _), List.map_cons,
      unHexLe_hexLe, Char.ofNat_toNat]
    exact congrArg (c :: ·) ih

theorem mem_encJVal {v : JVal} {c : Char} (hc : c ∈ encJVal v) :
    'a' ≤ c ∧ c ≤ 'w' := by
  cases v with
  | str s =>
    simp only [encJVal, List.mem_cons] at hc
    rcases hc with hc | hc
    · subst hc
      exact ⟨by decide, by decide⟩
    · exact ⟨(mem_encStr hc).1, le_trans (mem_encStr hc).2 (by decide)⟩
  | num n =>
    simp only [encJVal] at hc
    split at hc <;>
    · simp only [List.mem_cons] at hc
      rcases hc with hc | hc
      · subst hc
        exact ⟨by decide, by decide⟩
      · exact ⟨(mem_hexLe hc).1, le_trans (mem_hexLe hc).2 (by decide)⟩
  | bool b =>
    cases b <;> simp only [encJVal, List.mem_singleton] at hc <;> subst hc <;>
      exact ⟨by decide, by decide⟩
  | null =>
    simp only [encJVal, List.mem_singleton] at hc
    subst hc
    exact ⟨by decide, by decide⟩

theorem decJVal_encJVal (v : JVal) : decJVal (encJVal v) = some v := by
  cases v with
  | str s =>
    simp only [encJVal, decJVal, decStr_encStr]
  | num n =>
    by_cases h : n < 0
    · simp only [encJVal, if_pos h, decJVal, unHexLe_hexLe]
      congr 1
      congr 1
      omega
    · simp only [encJVal, if_neg h, decJVal, unHexLe_hexLe]
      congr 1
      congr 1
      omega
  | bool b => cases b <;> rfl
  | null => rfl

theorem mem_encEntry {e : String × JVal} {c : Char} (hc : c ∈ encEntry e) :
    'a' ≤ c ∧ c ≤ 'y' := by
  simp only [encEntry, List.mem_append, List.mem_cons] at hc
  rcases hc with hc | hc | hc
  · exact ⟨(mem_encStr hc).1, le_trans (mem_encStr hc).2 (by decide)⟩
  · subst hc
    exact ⟨by decide, by decide⟩
  · exact ⟨(mem_encJVal hc).1, le_trans (mem_encJVal hc).2 (by decide)⟩

theorem decEntry_encEntry (e : String × JVal) : decEntry (encEntry e) = some e := by
  obtain ⟨k, v⟩ := e
  have hy₁ : 'y' ∉ encStr k.data := fun hm =>
    absurd (mem_encStr hm).2 (by decide)
  have hy₂ : 'y' ∉ encJVal v := fun hm =>
    absurd (mem_encJVal hm).2 (by decide)
  unfold decEntry encEntry
  rw [splitOnChar_append _ hy₁, splitOnChar_not_mem hy₂]
  simp [decJVal_encJVal, decStr_encStr]

theorem mem_encPayloadChars {p : Payload} {c : Char} (hc : c ∈ encPayloadChars p) :
    'a' ≤ c ∧ c ≤ 'z' := by
  rcases List.mem_flatMap.mp hc with ⟨e, _, he⟩
  simp only [List.mem_append, List.mem_singleton] at he
  rcases he with he | he
  · exact ⟨(mem_encEntry he).1, le_trans (mem_encEntry he).2 (by decide)⟩
  · subst he
    exact ⟨by decide, by decide⟩

theorem decPayload_encPayload (p : Payload) :
    decPayloadChars (encPayloadChars p) = some p := by
  induction p with
  | nil => rfl
  | cons e rest ih =>
    have hz : 'z' ∉ encEntry e := fun hm =>
      absurd (mem_encEntry hm).2 (by decide)
    have hshape : encPayloadChars (e :: rest) = encEntry e ++ 'z' :: encPayloadChars rest := by
      simp [encPayloadChars]
    unfold decPayloadChars
    rw [hshape, splitOnChar_append _ hz,
      dropLast_cons_of_ne_nil _ (splitOnChar_ne_nil _ _)]
    unfold decPayloadChars at ih
    simp [decEntries, decEntry_encEntry, ih]

theorem mem_encSig {s : Sig} {c : Char} (hc : c ∈ encSig s) :
    'a' ≤ c ∧ c ≤ 'y' := by
  simp only [encSig, List.mem_append, List.mem_cons] at hc
  rcases hc with (hc | hc | hc) | hc | hc
  · exact ⟨(mem_encStr hc).1, le_trans (mem_encStr hc).2 (by decide)⟩
  · subst hc
    exact ⟨by decide, by decide⟩
  · exact ⟨(mem_encStr hc).1, le_trans (mem_encStr hc).2 (by decide)⟩
  · subst hc
    exact ⟨by decide, by decide⟩
  · exact ⟨(mem_encStr hc).1, le_trans (mem_encStr hc).2 (by decide)⟩

theorem decSig_encSig (s : Sig) : decSig (encSig s) = some s := by
  obtain ⟨a, b, m⟩ := s
  have ha : 'y' ∉ encStr a.data := fun hm => absurd (mem_encStr hm).2 (by decide)
  have hb : 'y' ∉ encStr b.data := fun hm => absurd (mem_encStr hm).2 (by decide)
  have hm : 'y' ∉ encStr m.data := fun hmm => absurd (mem_encStr hmm).2 (by decide)
  unfold decSig encSig
  rw [List.append_assoc, List.cons_append, splitOnChar_append _ ha]
  rw [splitOnChar_append _ hb, splitOnChar_not_mem hm]
  simp [decStr_encStr]

/-! ## Token and URL lemmas -/

theorem jwt_encode_data (body : Payload) (secret alg : String) :
    (jwt_encode body secret alg).data
      = encStr alg.data ++ '.' :: encPayloadChars body
        ++ '.' :: encSig ⟨alg, secret,
            String.mk (encStr alg.data ++ '.' :: encPayloadChars body)⟩ := rfl

theorem mem_jwt_encode {body : Payload} {secret alg : String} {c : Char}
    (hc : c ∈ (jwt_encode body secret alg).data) :
    ('a' ≤ c ∧ c ≤ 'z') ∨ c = '.' := by
  rw [jwt_encode_data] at hc
  simp only [List.mem_append, List.mem_cons] at hc
  rcases hc with (hc | hc) | hc | hc
  · exact Or.inl ⟨(mem_encStr hc).1, le_trans (mem_encStr hc).2 (by decide)⟩
  · rcases hc with hc | hc
    · exact Or.inr hc
    · exact Or.inl ⟨(mem_encPayloadChars hc).1, (mem_encPayloadChars hc).2⟩
  · exact Or.inr hc
  · exact Or.inl ⟨(mem_encSig hc).1, le_trans (mem_encSig hc).2 (by decide)⟩

theorem jwt_encode_splits (body : Payload) (secret alg : String) :
    splitOnChar '.' (jwt_encode body secret alg).data
      = [encStr alg.data, encPayloadChars body,
         encSig ⟨alg, secret, String.mk (encStr alg.data ++ '.' :: encPayloadChars body)⟩] := by
  have h₁ : '.' ∉ encStr alg.data := fun hm =>
    absurd (mem_encStr hm).1 (by decide)
  have h₂ : '.' ∉ encPayloadChars body := fun hm =>
    absurd (mem_encPayloadChars hm).1 (by decide)
  have h₃ : '.' ∉ encSig ⟨alg, secret,
      String.mk (encStr alg.data ++ '.' :: encPayloadChars body)⟩ := fun hm =>
    absurd (mem_encSig hm).1 (by decide)
  rw [jwt_encode_data, List.append_assoc, List.cons_append,
    splitOnChar_append _ h₁, splitOnChar_append _ h₂, splitOnChar_not_mem h₃]

theorem jwt_decode_unverified_encode (body : Payload) (secret alg : String) :
    jwt_decode_unverified (jwt_encode body secret alg) = some body := by
  unfold jwt_decode_unverified
  rw [jwt_encode_splits]
  exact decPayload_encPayload body

theorem isAlphanum_of_lower {c : Char} (h1 : 'a' ≤ c) (h2 : c ≤ 'z') :
    c.isAlphanum = true := by
  have hv1 : (97 : UInt32) ≤ c.val := h1
  have hv2 : c.val ≤ (122 : UInt32) := h2
  unfold Char.isAlphanum Char.isAlpha Char.isLower
  simp only [ge_iff_le, Bool.and_eq_true, decide_eq_true_eq, Bool.or_eq_true]
  exact Or.inl (Or.inr ⟨hv1, hv2⟩)

theorem quotePlusChar_safe {c : Char} (h : ('a' ≤ c ∧ c ≤ 'z') ∨ c = '.') :
    quotePlusChar c = [c] := by
  rcases h with ⟨h1, h2⟩ | h
  · simp [quotePlusChar, isAlphanum_of_lower h1 h2]
  · subst h
    rfl

theorem quotePlus_jwt_encode (body : Payload) (secret alg : String) :
    quotePlus (jwt_encode body secret alg) = jwt_encode body secret alg := by
  unfold quotePlus
  have : ∀ l : List Char, (∀ c ∈ l, quotePlusChar c = [c]) → l.flatMap quotePlusChar = l := by
    intro l
    induction l with
    | nil => intro _; rfl
    | cons c cs ih =>
      intro h
      simp only [List.flatMap_cons, h c (List.mem_cons_self c cs)]
      rw [ih (fun d hd => h d (List.mem_cons_of_mem _ hd))]
      rfl
  have hmk : ∀ s : String, String.mk s.data = s := fun _ => rfl
  conv_rhs => rw [← hmk (jwt_encode body secret alg)]
  congr 1
  exact this _ (fun c hc => quotePlusChar_safe (mem_jwt_encode hc))

theorem takeWhile_eq_self {p : Char → Bool} {l : List Char}
    (h : ∀ c ∈ l, p c = true) : l.takeWhile p = l := by
  induction l with
  | nil => rfl
  | cons c cs ih =>
    simp only [List.takeWhile_cons, h c (List.mem_cons_self c cs)]
    simp [ih (fun d hd => h d (List.mem_cons_of_mem _ hd))]

theorem dropWhile_append_cons {p : Char → Bool} {l₁ : List Char} {x : Char}
    (l₂ : List Char) (h : ∀ c ∈ l₁, p c = true) (hx : p x = false) :
    (l₁ ++ x :: l₂).dropWhile p = x :: l₂ := by
  induction l₁ with
  | nil =>
    simp only [List.nil_append, List.dropWhile_cons, hx]
    simp
  | cons c cs ih =>
    simp only [List.cons_append, List.dropWhile_cons, h c (List.mem_cons_self c cs)]
    simp only [if_true]
    exact ih (fun d hd => h d (List.mem_cons_of_mem _ hd))

theorem build_eq (app : App) (api_key : ApiKey) (callback_uri : String)
    (path state : Option String) (iat : Int) (jti : String) :
    build_id_site_redirect_url app api_key callback_uri path state iat jti
      = "https://api.stormpath.com/sso" ++ "?"
        ++ urlencode1 "jwtRequest"
            (jwt_encode (build_body app api_key callback_uri path state iat jti)
              api_key.secret "HS256") := rfl

theorem quotePlus_jwtRequest : quotePlus "jwtRequest" = "jwtRequest" := by decide

theorem ne_of_token_char {c : Char} (h : ('a' ≤ c ∧ c ≤ 'z') ∨ c = '.') :
    c ≠ '#' ∧ c ≠ '?' ∧ c ≠ '=' := by
  rcases h with ⟨h1, _⟩ | h
  · refine ⟨fun e => ?_, fun e => ?_, fun e => ?_⟩ <;>
      (subst e; exact absurd h1 (by decide))
  · subst h
    exact ⟨by decide, by decide, by decide⟩

theorem build_data (app : App) (api_key : ApiKey) (callback_uri : String)
    (path state : Option String) (iat : Int) (jti : String) :
    (build_id_site_redirect_url app api_key callback_uri path state iat jti).data
      = "https://api.stormpath.com/sso".data
        ++ '?' :: ("jwtRequest".data ++ '='
          :: (jwt_encode (build_body app api_key callback_uri path state iat jti)
                api_key.secret "HS256").data) := by
  rw [build_eq]
  unfold urlencode1
  rw [quotePlus_jwtRequest, quotePlus_jwt_encode]
  simp [String.data_append]

theorem extract_build (app : App) (api_key : ApiKey) (callback_uri : String)
    (path state : Option String) (iat : Int) (jti : String) :
    extract_jwt_response (build_id_site_redirect_url app api_key callback_uri path state iat jti)
      = some (jwt_encode (build_body app api_key callback_uri path state iat jti)
          api_key.secret "HS256") := by
  have htok : ∀ c ∈ (jwt_encode (build_body app api_key callback_uri path state iat jti)
      api_key.secret "HS256").data, c ≠ '#' ∧ c ≠ '?' ∧ c ≠ '=' :=
    fun c hc => ne_of_token_char (mem_jwt_encode hc)
  have hbase₁ : ∀ c ∈ "https://api.stormpath.com/sso".data, c ≠ '#' := by decide
  have hbase₂ : ∀ c ∈ "https://api.stormpath.com/sso".data, c ≠ '?' := by decide
  have hkey₁ : ∀ c ∈ "jwtRequest".data, c ≠ '#' := by decide
  have hquery : urlparse_query
      (build_id_site_redirect_url app api_key callback_uri path state iat jti)
      = String.mk ("jwtRequest".data ++ '='
          :: (jwt_encode (build_body app api_key callback_uri path state iat jti)
                api_key.secret "HS256").data) := by
    unfold urlparse_query
    rw [build_data]
    have hhash : List.takeWhile (fun c => c ≠ '#')
        ("https://api.stormpath.com/sso".data
          ++ '?' :: ("jwtRequest".data ++ '='
            :: (jwt_encode (build_body app api_key callback_uri path state iat jti)
                  api_key.secret "HS256").data))
        = "https://api.stormpath.com/sso".data
          ++ '?' :: ("jwtRequest".data ++ '='
            :: (jwt_encode (build_body app api_key callback_uri path state iat jti)
                  api_key.secret "HS256").data) := by
      apply takeWhile_eq_self
      intro c hc
      simp only [ne_eq, decide_eq_true_eq]
      rcases List.mem_append.mp hc with h1 | h1
      · exact hbase₁ c h1
      · rcases List.mem_cons.mp h1 with h2 | h2
        · subst h2
          decide
        · rcases List.mem_append.mp h2 with h3 | h3
          · exact hkey₁ c h3
          · rcases List.mem_cons.mp h3 with h4 | h4
            · subst h4
              decide
            · exact (htok c h4).1
    rw [hhash]
    have hdrop : List.dropWhile (fun c => c ≠ '?')
        ("https://api.stormpath.com/sso".data
          ++ '?' :: ("jwtRequest".data ++ '='
            :: (jwt_encode (build_body app api_key callback_uri path state iat jti)
                  api_key.secret "HS256").data))
        = '?' :: ("jwtRequest".data ++ '='
            :: (jwt_encode (build_body app api_key callback_uri path state iat jti)
                  api_key.secret "HS256").data) := by
      apply dropWhile_append_cons
      · intro c hc
        simp only [ne_eq, decide_eq_true_eq]
        exact hbase₂ c hc
      · simp
    rw [hdrop]
    rfl
  unfold extract_jwt_response
  rw [hquery]
  have hsplit : splitOnChar '='
      (String.mk ("jwtRequest".data ++ '='
        :: (jwt_encode (build_body app api_key callback_uri path state iat jti)
              api_key.secret "HS256").data)).data
      = ["jwtRequest".data,
         (jwt_encode (build_body app api_key callback_uri path state iat jti)
            api_key.secret "HS256").data] := by
    have h₁ : '=' ∉ "jwtRequest".data := by decide
    have h₂ : '=' ∉ (jwt_encode (build_body app api_key callback_uri path state iat jti)
        api_key.secret "HS256").data :=
      fun hm => absurd rfl (htok _ hm).2.2
    rw [show (String.mk ("jwtRequest".data ++ '='
        :: (jwt_encode (build_body app api_key callback_uri path state iat jti)
              api_key.secret "HS256").data)).data
      = "jwtRequest".data ++ '='
        :: (jwt_encode (build_body app api_key callback_uri path state iat jti)
              api_key.secret "HS256").data from rfl]
    rw [splitOnChar_append _ h₁, splitOnChar_not_mem h₂]
  rw [hsplit]
  rfl

/-! ## Contents of the built claim body -/

theorem lookup_aud_build_body (app : App) (api_key : ApiKey) (callback_uri : String)
    (path state : Option String) (iat : Int) (jti : String) :
    List.lookup "aud" (build_body app api_key callback_uri path state iat jti) = none := by
  unfold build_body
  rcases path with _ | p
  · rcases state with _ | s
    · simp [List.lookup]
    · by_cases hs : s = "" <;> simp [List.lookup, hs]
  · rcases state with _ | s
    · by_cases hp : p = "" <;> simp [List.lookup, hp]
    · by_cases hp : p = "" <;> by_cases hs : s = "" <;> simp [List.lookup, hp, hs]

theorem lookup_cb_uri_build_body (app : App) (api_key : ApiKey) (callback_uri : String)
    (path state : Option String) (iat : Int) (jti : String) :
    List.lookup "cb_uri" (build_body app api_key callback_uri path state iat jti)
      = some (JVal.str callback_uri) := by
  unfold build_body
  simp [List.lookup]

theorem lookup_path_build_body (app : App) (api_key : ApiKey) (callback_uri : String)
    (path state : Option String) (iat : Int) (jti : String) :
    List.lookup "path" (build_body app api_key callback_uri path state iat jti)
      = (match path with
         | some p => if p = "" then none else some (JVal.str p)
         | none => none) := by
  unfold build_body
  rcases path with _ | p
  · rcases state with _ | s
    · simp [List.lookup]
    · by_cases hs : s = "" <;> simp [List.lookup, hs]
  · rcases state with _ | s
    · by_cases hp : p = "" <;> simp [List.lookup, hp]
    · by_cases hp : p = "" <;> by_cases hs : s = "" <;> simp [List.lookup, hp, hs]

theorem lookup_state_build_body (app : App) (api_key : ApiKey) (callback_uri : String)
    (path state : Option String) (iat : Int) (jti : String) :
    List.lookup "state" (build_body app api_key callback_uri path state iat jti)
      = (match state with
         | some s => if s = "" then none else some (JVal.str s)
         | none => none) := by
  unfold build_body
  rcases path with _ | p
  · rcases state with _ | s
    · simp [List.lookup]
    · by_cases hs : s = "" <;> simp [List.lookup, hs]
  · rcases state with _ | s
    · by_cases hp : p = "" <;> simp [List.lookup, hp]
    · by_cases hp : p = "" <;> by_cases hs : s = "" <;> simp [List.lookup, hp, hs]

/-- A URL built by `build_id_site_redirect_url` fails `handle_id_site_callback`'s
`aud` check: the request token carries no `aud` claim. -/
theorem verifyStage_build (app : App) (now : Int) (api_key : ApiKey)
    (callback_uri : String) (path state : Option String) (iat : Int) (jti : String) :
    verifyStage app now
      (build_id_site_redirect_url app api_key callback_uri path state iat jti) = none := by
  unfold verifyStage
  rw [extract_build]
  simp only [jwt_decode_unverified_encode, lookup_aud_build_body]

theorem handle_build (app : App) (now : Int) (cache : Cache) (api_key : ApiKey)
    (callback_uri : String) (path state : Option String) (iat : Int) (jti : String) :
    handle_id_site_callback app now cache
      (build_id_site_redirect_url app api_key callback_uri path state iat jti)
      = ⟨.pynone, cache, []⟩ := by
  unfold handle_id_site_callback
  rw [verifyStage_build]

/-! ## Anatomy of a successful callback -/

/-- A call that returns a result got past signature verification, found an
`irt`, saw no nonce in the cache, and wrote the nonce: its output cache is
exactly the input cache with the nonce entry put on top. -/
theorem handle_ok_anatomy {app : App} {now : Int} {cache : Cache} {url : String}
    {r : IdSiteCallbackResult}
    (h : (handle_id_site_callback app now cache url).result = .ok r) :
    ∃ d irt, verifyStage app now url = some d
      ∧ List.lookup "irt" d = some irt
      ∧ nonceCheckStep cache (mkNonce (jvalKey irt)).href = false
      ∧ (handle_id_site_callback app now cache url).cache
          = noncePutStep cache (mkNonce (jvalKey irt)) := by
  unfold handle_id_site_callback at h ⊢
  cases hv : verifyStage app now url with
  | none =>
    simp only [hv] at h
    exact absurd h (by simp)
  | some d =>
    simp only [hv] at h ⊢
    cases hirt : List.lookup "irt" d with
    | none =>
      simp only [hirt] at h
      exact absurd h (by simp)
    | some irt =>
      simp only [hirt] at h ⊢
      by_cases hchk : nonceCheckStep cache (mkNonce (jvalKey irt)).href = true
      · simp only [hchk, if_true] at h
        exact absurd h (by simp)
      · simp only [Bool.not_eq_true] at hchk
        refine ⟨d, irt, rfl, hirt, hchk, ?_⟩
        simp only [hchk, Bool.false_eq_true, if_false]
        cases List.lookup "iss" d <;> cases List.lookup "sub" d <;>
          cases List.lookup "isNewSub" d <;> cases List.lookup "state" d <;> rfl

theorem nonceCheckStep_after_put (cache : Cache) (n : Nonce) :
    nonceCheckStep (noncePutStep cache n) n.href = true := by
  simp [nonceCheckStep, noncePutStep, cache_put, cache_get, cache_truthy, List.lookup]

/-- C1 (Single use): a raw token whose first `handle_id_site_callback` call
verifies successfully cannot be accepted again: a second call on the
identical raw token, against the store state the first call produced, fails
with the replay error (the `ValueError('JWT has already been used.')`
raised at line 233 when the nonce written by the first call is found). -/
theorem single_use_second_call_replays (app : App) (now : Int) (cache : Cache)
    (url : String) (r : IdSiteCallbackResult)
    (h : (handle_id_site_callback app now cache url).result = .ok r) :
    (handle_id_site_callback app now
        (handle_id_site_callback app now cache url).cache url).result
      = .raised (.valueError "JWT has already been used.") := by
  obtain ⟨d, irt, hv, hirt, hchk, hcache⟩ := handle_ok_anatomy h
  rw [hcache]
  unfold handle_id_site_callback
  simp only [hv, hirt, nonceCheckStep_after_put, if_true]

/-- Witness for C1 at a concrete valid response token. -/
theorem single_use_second_call_replays_witness :
    (handle_id_site_callback sampleApp 0
        (handle_id_site_callback sampleApp 0 [] respUrl).cache respUrl).result
      = .raised (.valueError "JWT has already been used.") :=
  single_use_second_call_replays sampleApp 0 [] respUrl
    ⟨⟨"acchref", 200⟩, JVal.str "xyz"⟩ (by decide)

/-- C3 (nonce only after signature verification): whenever the
verification stage fails — the callback URL does not parse, the token does
not decode, the `aud` claim is absent or falsy, no API key resolves for it,
or the signature/expiry check with the resolved key fails
(`verifyStage … = none` covers exactly these cases, which never touch the
store) — the call returns `None` and the nonce cache is left exactly as it
was: no nonce is written. -/
theorem no_nonce_without_verified_signature (app : App) (now : Int) (cache : Cache)
    (url : String) (h : verifyStage app now url = none) :
    handle_id_site_callback app now cache url = ⟨.pynone, cache, []⟩ := by
  unfold handle_id_site_callback
  rw [h]

/-- Witness for C3: a signed token without an `aud` claim fails the stage
and writes nothing to a nonempty starting cache. -/
theorem no_nonce_without_verified_signature_witness :
    verifyStage sampleApp 0 noAudUrl = none
      ∧ handle_id_site_callback sampleApp 0 [("x", [("v", "1")])] noAudUrl
          = ⟨.pynone, [("x", [("v", "1")])], []⟩ :=
  ⟨by decide, no_nonce_without_verified_signature sampleApp 0
    [("x", [("v", "1")])] noAudUrl (by decide)⟩

/-- C9 (frame on the `None` paths): whenever `handle_id_site_callback`
returns the no-result value `None` — for any reason — it has written
nothing to the nonce cache and performed no account lookup: the output
store equals the input store and the account-retrieval trace is empty. -/
theorem pynone_leaves_state_unchanged (app : App) (now : Int) (cache : Cache)
    (url : String)
    (h : (handle_id_site_callback app now cache url).result = .pynone) :
    handle_id_site_callback app now cache url = ⟨.pynone, cache, []⟩ := by
  unfold handle_id_site_callback at h ⊢
  cases hv : verifyStage app now url with
  | none => rfl
  | some d =>
    simp only [hv] at h ⊢
    cases hirt : List.lookup "irt" d with
    | none =>
      simp only [hirt] at h
      exact absurd h (by simp)
    | some irt =>
      simp only [hirt] at h ⊢
      by_cases hchk : nonceCheckStep cache (mkNonce (jvalKey irt)).href = true
      · simp only [hchk, if_true] at h
        exact absurd h (by simp)
      · simp only [Bool.not_eq_true] at hchk
        simp only [hchk, Bool.false_eq_true, if_false] at h
        exfalso
        cases h1 : List.lookup "iss" d <;> cases h2 : List.lookup "sub" d <;>
          cases h3 : List.lookup "isNewSub" d <;> cases h4 : List.lookup "state" d <;>
          simp [h1, h2, h3, h4] at h

/-- Witness for C9 at a malformed callback URL and a nonempty cache. -/
theorem pynone_leaves_state_unchanged_witness :
    (handle_id_site_callback sampleApp 0 [("k", [("a", "b")])] "not-a-url").result
        = .pynone
      ∧ handle_id_site_callback sampleApp 0 [("k", [("a", "b")])] "not-a-url"
          = ⟨.pynone, [("k", [("a", "b")])], []⟩ :=
  ⟨by decide, pynone_leaves_state_unchanged sampleApp 0
    [("k", [("a", "b")])] "not-a-url" (by decide)⟩

/-- C2 (replay check is not atomic): lines 232/236 issue a separate
`_cache_get` and then a separate `_cache_put`.  Interleaving two concurrent
verifications of the same token as check-A, check-B, write-A, write-B makes
both checks pass, so both callers proceed to success — "at most one
succeeds" fails — although the same second check would have found the nonce
had check and write been a single atomic step.  The nonce used is exactly
the one a real successful call writes for the concrete valid token. -/
theorem replay_check_race_lets_both_succeed :
    (interleavedReplay [] (mkNonce "n1")).1 = true
      ∧ (interleavedReplay [] (mkNonce "n1")).2.1 = true
      ∧ nonceCheckStep (noncePutStep [] (mkNonce "n1")) (mkNonce "n1").href = true
      ∧ (handle_id_site_callback sampleApp 0 [] respUrl).cache
          = noncePutStep [] (mkNonce "n1") := by
  decide

/-- C4 (no algorithm pinning at verification): `jwt.decode(jwt_response,
api_key.secret)` at line 223 is given no algorithm, so (as in the pre-1.0
PyJWT this code targets) the verifying algorithm is read from the token's
own header.  A token whose header names HS512 — not the pinned HS256 of
line 183 — and which is signed under HS512 with the resolved key, passes
signature verification and the whole callback succeeds. -/
theorem verification_trusts_header_algorithm :
    jwt_header_alg respTokenHS512 = some "HS512"
      ∧ ("HS512" : String) ≠ "HS256"
      ∧ jwt_decode_verified respTokenHS512 "sec" 0 = .ok respPayload
      ∧ (handle_id_site_callback sampleApp 0 [] respUrlHS512).result
          = .ok ⟨⟨"acchref", 200⟩, JVal.str "xyz"⟩ := by
  decide

/-- C6 (failures are collapsed, not typed): a malformed URL, a token with
no `aud`, an unknown signer, a bad signature and an expired token all
produce the one indistinguishable no-result output `None`; a token missing
the `state` claim escapes as an uncaught `KeyError` instead of a typed
result (and replay escapes as an uncaught `ValueError`, line 233). -/
theorem failure_kinds_indistinguishable :
    handle_id_site_callback sampleApp 0 [] "not-a-url" = ⟨.pynone, [], []⟩
      ∧ handle_id_site_callback sampleApp 0 [] noAudUrl = ⟨.pynone, [], []⟩
      ∧ handle_id_site_callback sampleApp 0 [] unknownAudUrl = ⟨.pynone, [], []⟩
      ∧ handle_id_site_callback sampleApp 0 [] badSigUrl = ⟨.pynone, [], []⟩
      ∧ handle_id_site_callback sampleApp 0 [] expiredUrl = ⟨.pynone, [], []⟩
      ∧ (handle_id_site_callback sampleApp 0 [] noStateUrl).result
          = .raised (.keyError "state") := by
  decide

/-- C5 counterexample: the round trip fails at a concrete valid input.
Verifying the URL built for callback URI `https://cb.example/x` with path
and state supplied yields no claims at all: `handle_id_site_callback`
returns `None` (the request token has no `aud` claim), not a result with
`cb_uri`/`path`/`state`. -/
theorem round_trip_counterexample :
    handle_id_site_callback sampleApp 0 []
        (build_id_site_redirect_url sampleApp sampleKey "https://cb.example/x"
          (some "/#/register") (some "st") 5 "j1")
      = ⟨.pynone, [], []⟩ := by
  decide

/-- C5 amended: for every callback URI, optional path and optional state,
the token extracted from the built URL decodes to claims with `cb_uri`
equal to the supplied URI and `path`/`state` exactly as supplied (absent
when omitted or empty) — but `handle_id_site_callback` does not verify it:
it returns `None`, because the request token built by
`build_id_site_redirect_url` carries no `aud` claim (nor `irt`/`isNewSub`),
which the callback handler requires. -/
theorem round_trip_amended (app : App) (api_key : ApiKey) (callback_uri : String)
    (path state : Option String) (iat : Int) (jti : String) (now : Int) (cache : Cache) :
    extract_jwt_response (build_id_site_redirect_url app api_key callback_uri path state iat jti)
        = some (jwt_encode (build_body app api_key callback_uri path state iat jti)
            api_key.secret "HS256")
      ∧ jwt_decode_unverified (jwt_encode (build_body app api_key callback_uri path state iat jti)
            api_key.secret "HS256")
          = some (build_body app api_key callback_uri path state iat jti)
      ∧ List.lookup "cb_uri" (build_body app api_key callback_uri path state iat jti)
          = some (JVal.str callback_uri)
      ∧ List.lookup "path" (build_body app api_key callback_uri path state iat jti)
          = (match path with
             | some p => if p = "" then none else some (JVal.str p)
             | none => none)
      ∧ List.lookup "state" (build_body app api_key callback_uri path state iat jti)
          = (match state with
             | some s => if s = "" then none else some (JVal.str s)
             | none => none)
      ∧ handle_id_site_callback app now cache
          (build_id_site_redirect_url app api_key callback_uri path state iat jti)
        = ⟨.pynone, cache, []⟩ :=
  ⟨extract_build app api_key callback_uri path state iat jti,
   jwt_decode_unverified_encode _ _ _,
   lookup_cb_uri_build_body app api_key callback_uri path state iat jti,
   lookup_path_build_body app api_key callback_uri path state iat jti,
   lookup_state_build_body app api_key callback_uri path state iat jti,
   handle_build app now cache api_key callback_uri path state iat jti⟩

/-- C7 counterexample: a token built without `path` and without `state` is
not verified successfully: at this concrete input the callback handler
returns `None`, because the built token has no `aud` claim. -/
theorem built_without_optionals_counterexample :
    handle_id_site_callback sampleApp 0 []
        (build_id_site_redirect_url sampleApp sampleKey "https://cb.example/x"
          none none 5 "j2")
      = ⟨.pynone, [], []⟩ := by
  decide

/-- C7 amended: a token built without `path` and without `state` does omit
both fields from the signed claim body (absent — not present as empty
strings), but `handle_id_site_callback` does not verify it successfully:
for every signing key and callback URI it returns `None`, since the
request token lacks the `aud` claim the handler requires (and the handler
moreover raises `KeyError` on any verifiable token missing `state`,
line 241). -/
theorem built_without_optionals_amended (app : App) (api_key : ApiKey)
    (callback_uri : String) (iat : Int) (jti : String) (now : Int) (cache : Cache) :
    List.lookup "path" (build_body app api_key callback_uri none none iat jti) = none
      ∧ List.lookup "state" (build_body app api_key callback_uri none none iat jti) = none
      ∧ handle_id_site_callback app now cache
          (build_id_site_redirect_url app api_key callback_uri none none iat jti)
        = ⟨.pynone, cache, []⟩ :=
  ⟨lookup_path_build_body app api_key callback_uri none none iat jti,
   lookup_state_build_body app api_key callback_uri none none iat jti,
   handle_build app now cache api_key callback_uri none none iat jti⟩

/-- C8 counterexample: `build_id_site_redirect_url` does not fail on an
empty callback URI.  At the concrete input `callback_uri = ""` it returns
an ordinary redirect URL whose token extracts and decodes to a claim body
with `cb_uri` equal to the empty string. -/
theorem build_empty_callback_counterexample :
    extract_jwt_response (build_id_site_redirect_url sampleApp sampleKey "" none none 0 "j3")
        = some (jwt_encode (build_body sampleApp sampleKey "" none none 0 "j3") "sec" "HS256")
      ∧ jwt_decode_unverified
          (jwt_encode (build_body sampleApp sampleKey "" none none 0 "j3") "sec" "HS256")
        = some (build_body sampleApp sampleKey "" none none 0 "j3")
      ∧ List.lookup "cb_uri" (build_body sampleApp sampleKey "" none none 0 "j3")
          = some (JVal.str "") := by
  decide

/-- C8 amended: `build_id_site_redirect_url` never fails: for every
callback URI — the empty string included — it returns the SSO redirect URL
embedding the signed token, whose claims carry `cb_uri` exactly as
supplied.  It is a pure computation of that string: in this model it takes
no store and performs no I/O, so it has no side effects on any state. -/
theorem build_never_fails_amended (app : App) (api_key : ApiKey) (callback_uri : String)
    (path state : Option String) (iat : Int) (jti : String) :
    build_id_site_redirect_url app api_key callback_uri path state iat jti
        = "https://api.stormpath.com/sso" ++ "?"
          ++ urlencode1 "jwtRequest"
              (jwt_encode (build_body app api_key callback_uri path state iat jti)
                api_key.secret "HS256")
      ∧ extract_jwt_response (build_id_site_redirect_url app api_key callback_uri path state iat jti)
          = some (jwt_encode (build_body app api_key callback_uri path state iat jti)
              api_key.secret "HS256")
      ∧ List.lookup "cb_uri" (build_body app api_key callback_uri path state iat jti)
          = some (JVal.str callback_uri) :=
  ⟨build_eq app api_key callback_uri path state iat jti,
   extract_build app api_key callback_uri path state iat jti,
   lookup_cb_uri_build_body app api_key callback_uri path state iat jti⟩

/-- C10: a `path` or `state` argument that is supplied but falsy (the empty
string) is omitted from the signed token exactly as if it had not been
supplied at all — the built URL is identical — and the built claim body
never contains an empty-string `path` or `state` field, whatever the
arguments. -/
theorem falsy_optionals_omitted (app : App) (api_key : ApiKey) (callback_uri : String)
    (path state : Option String) (iat : Int) (jti : String) :
    build_id_site_redirect_url app api_key callback_uri (some "") (some "") iat jti
        = build_id_site_redirect_url app api_key callback_uri none none iat jti
      ∧ List.lookup "path" (build_body app api_key callback_uri path state iat jti)
          ≠ some (JVal.str "")
      ∧ List.lookup "state" (build_body app api_key callback_uri path state iat jti)
          ≠ some (JVal.str "") := by
  refine ⟨by simp [build_id_site_redirect_url], ?_, ?_⟩
  · rw [lookup_path_build_body]
    rcases path with _ | p
    · simp
    · by_cases hp : p = "" <;> simp [hp]
  · rw [lookup_state_build_body]
    rcases state with _ | s
    · simp
    · by_cases hs : s = "" <;> simp [hs]

end StormpathIdSite
